import Mathlib

/-!
# Verification of the local-RAG retrieval core

Shallow embedding of the retrieval core of the "Chat with My Notes"
application (files `chat_app.py`, `search.py`, `sources.py`) and proofs of
the specification claims about it.

Modelling conventions:
* Python strings are modelled as `List Char` (`Str`); `str.strip`,
  `str.split`, `str.lower`, substring tests, and `pathlib.Path.stem` are
  re-implemented on this representation.
* Similarity scores are modelled as rationals (`ℚ`).  The external numeric
  collaborators — the sentence-transformer encoder (`model.encode`) and
  sklearn's `cosine_similarity` — are passed as explicit function
  parameters, exactly at the call boundary the code uses.  The literal
  float threshold `0.1` is modelled as the rational `1/10`.
* The external generator (`ollama.chat`) is modelled as a function
  returning `Except Str Str`: `.ok` is a successful response's message
  content, `.error` models a raised exception whose display string is the
  payload (Python's `str(e)`).
* `np.argsort` uses a deterministic but unspecified tie order
  (quicksort); it is modelled by a stable insertion sort on indices.
  None of the proved properties depend on the tie order.
-/

/-- Python strings, modelled as lists of characters. -/
abbrev Str := List Char

/-- Embed a Lean string literal into the model. -/
def str (s : String) : Str := s.data

/-- The set of characters stripped by `str.strip()` and matched by the
regex class `\s` for Python `str` inputs (Unicode whitespace). -/
def pyIsSpace (c : Char) : Bool :=
  c = ' ' ∨ c = '\t' ∨ c = '\n' ∨ c = '\r' ∨ c = '\x0b' ∨ c = '\x0c' ∨
  (0x1c ≤ c.toNat ∧ c.toNat ≤ 0x1f) ∨ c.toNat = 0x85 ∨ c.toNat = 0xa0 ∨
  c.toNat = 0x1680 ∨ (0x2000 ≤ c.toNat ∧ c.toNat ≤ 0x200a) ∨
  c.toNat = 0x2028 ∨ c.toNat = 0x2029 ∨ c.toNat = 0x202f ∨
  c.toNat = 0x205f ∨ c.toNat = 0x3000

/-- Python `str.strip()`: drop leading and trailing whitespace. -/
def pyStrip (s : Str) : Str :=
  ((s.dropWhile pyIsSpace).reverse.dropWhile pyIsSpace).reverse

/-- Python `str.split(sep)` for a single-character separator `sep`
(e.g. `current_chunk.split('.')`): always returns at least one piece,
empty pieces included. -/
def pySplitOn (sep : Char) : Str → List Str
  | [] => [[]]
  | c :: rest =>
    if c = sep then
      [] :: pySplitOn sep rest
    else
      match pySplitOn sep rest with
      | [] => [[c]]
      | p :: ps => (c :: p) :: ps

/-- Python `pat in s`: substring containment. -/
def containsSub (pat s : Str) : Bool :=
  (List.tails s).any (fun t => List.isPrefixOf pat t)

/-- Python `s.startswith(pat)`. -/
def pyStartsWith (pat s : Str) : Bool := List.isPrefixOf pat s

/-- Python `s.endswith(pat)`. -/
def pyEndsWith (pat s : Str) : Bool := List.isSuffixOf pat s

/-- Python `s.lower()` (ASCII model of Unicode lowercasing; all strings
compared by the code under verification are ASCII). -/
def pyLower (s : Str) : Str := s.map Char.toLower

/-!
## Chunker (`chat_app.py`, `chunk_text`)

`re.split(r'\n\s*\n|(?=^#{1,6}\s)', text, flags=re.MULTILINE)` splits the
text on blank-line gaps and (zero-width) before Markdown headings at line
starts.  The splitter below reproduces `re.split`'s scanning semantics:

* Alternative 1, `\n\s*\n`, matches at a position holding `'\n'` whose
  following maximal whitespace run contains another `'\n'`; the greedy
  `\s*` with backtracking makes the match extend through the *last*
  `'\n'` of that run.
* Alternative 2, `(?=^#{1,6}\s)`, is a zero-width match at a line start
  followed by one to six `'#'` and a whitespace character.
* `re.split` (Python ≥ 3.7) splits on every match found by left-to-right
  scanning; after an empty match at position `p` the scan resumes at
  `p + 1` (no match is attempted at `p` again), after a non-empty match
  it resumes at the match's end.
-/

/-- Does the zero-width heading lookahead `(?=^#{1,6}\s)` match at the
start of `l` (line-start condition handled by the caller)?  Seven or more
`'#'` do not match (the quantifier is capped at six and `'#'` is not
whitespace). -/
def headingAt (l : Str) : Bool :=
  let h := (l.takeWhile (· = '#')).length
  if 1 ≤ h ∧ h ≤ 6 then
    match l.get? h with
    | some c => pyIsSpace c
    | none => false
  else false

/-- Within the maximal whitespace run `run`, the index just past the last
`'\n'`, if any: the number of characters the backtracking `\s*\n` consumes
after the initial `'\n'` of a blank-line match. -/
def lastNlEnd (run : Str) : Option ℕ :=
  match run.reverse.findIdx? (· = '\n') with
  | some k => some (run.length - k)
  | none => none

/-- Does alternative 1 (`\n\s*\n`) match at a position whose text is
`c :: rest`?  If so, return the characters consumed *from `rest`*. -/
def blankMatch (c : Char) (rest : Str) : Option ℕ :=
  if c = '\n' then lastNlEnd (rest.takeWhile pyIsSpace) else none

/-- The scanner for
`re.split(r'\n\s*\n|(?=^#{1,6}\s)', text, flags=re.MULTILINE)`.
`atLS` is true when the current position is a line start; `acc` holds the
current output piece, reversed.  After an empty (heading-lookahead) match
the scanner emits the piece and consumes one character before scanning
again, which is exactly `re.split`'s resume-at-`p + 1` rule.
The recursion is driven by a `fuel` counter so that the definition is
structural (every recursive call consumes at least one character, so
`fuel = l.length` always suffices; the fuel-exhausted branch is dead
code). -/
def splitGo (fuel : ℕ) (atLS : Bool) (acc : Str) (l : Str) : List Str :=
  match fuel, l with
  | _, [] => [acc.reverse]
  | 0, _ :: _ => [acc.reverse]
  | f + 1, c :: rest =>
    match blankMatch c rest with
    | some consumed =>
      acc.reverse :: splitGo f true [] (rest.drop consumed)
    | none =>
      if atLS ∧ headingAt (c :: rest) then
        acc.reverse :: splitGo f (c = '\n') [c] rest
      else
        splitGo f (c = '\n') (c :: acc) rest

/-- `re.split(r'\n\s*\n|(?=^#{1,6}\s)', text, flags=re.MULTILINE)`. -/
def splitSegments (text : Str) : List Str :=
  splitGo text.length true [] text

/-- One iteration of the accumulation loop of `chunk_text`
(`chat_app.py` lines 137–157): state is `(chunks, current_chunk)`, the
next raw split piece is `para`. -/
def chunkStep (maxLength : ℕ) (st : List Str × Str) (para : Str) :
    List Str × Str :=
  let para := pyStrip para
  if para = [] then st
  else
    let (chunks, currentChunk) := st
    if currentChunk.length + para.length > maxLength ∧ currentChunk ≠ [] then
      let sentences := pySplitOn '.' currentChunk
      let next :=
        if sentences.length > 1 then
          sentences.getLastD [] ++ str ". " ++ para
        else
          para
      (chunks ++ [pyStrip currentChunk], next)
    else
      (chunks, if currentChunk = [] then para
               else currentChunk ++ str "\n\n" ++ para)

/-- `chunk_text(text, filename, max_length)` (`chat_app.py` lines
116–164).  The `filename` argument is unused by the code (documentation
only) and kept for signature fidelity. -/
def chunkText (text : Str) (_filename : Str) (maxLength : ℕ) : List Str :=
  let paragraphs := splitSegments text
  let res := paragraphs.foldl (chunkStep maxLength) ([], [])
  let chunks :=
    if pyStrip res.2 ≠ [] then res.1 ++ [pyStrip res.2] else res.1
  if chunks ≠ [] then chunks else [text]

example : splitSegments (str "aaaa\n\nbbbb\n\nc") =
    [str "aaaa", str "bbbb", str "c"] := by decide
example : chunkText (str "aaaa\n\nbbbb\n\nc") (str "f") 8 =
    [str "aaaa\n\nbbbb", str "c"] := by decide
example : chunkText (str "aaaa.bbbb\n\ncccc") (str "f") 10 =
    [str "aaaa.bbbb", str "bbbb. cccc"] := by decide
example : chunkText (str "a\n\n# Sec\nb") (str "f") 1000 =
    [str "a\n\n# Sec\nb"] := by decide
example : splitSegments (str "a\n\n# Sec\nb") =
    [str "a", str "", str "# Sec\nb"] := by decide
example : splitSegments (str "x\n\n\n# A\n## B ok\n####### no") =
    [str "x", str "", str "# A\n", str "## B ok\n####### no"] := by decide
example : splitSegments (str "# H\ncontent") =
    [str "", str "# H\ncontent"] := by decide
example : splitSegments (str "pre\n  \n  \npost") =
    [str "pre", str "post"] := by decide
example : splitSegments (str "") = [str ""] := by decide

/-!
## Data model

A chunk record (the dictionaries produced by `load_notes` in
`chat_app.py`): `file`, `title`, `content`, `chunk_id`, `metadata`.
`metadata` is the parsed front matter; the code only ever reads its
`title` and `tags` keys (`sources.py`) besides passing it through whole,
so it is modelled by those two components.  `heading` models the optional
`'heading'` key probed by `note.get('heading')` in `search.py`
(never set by the loader, hence `Option`).
-/

/-- Front-matter metadata as consumed by the code: optional `title`,
`tags` list, and equality-relevant identity for pass-through. -/
structure Metadata where
  title : Option Str
  tags : List Str
deriving DecidableEq

/-- A chunk record produced by `load_notes`. -/
structure Note where
  file : Str
  title : Str
  content : Str
  chunkId : ℕ
  heading : Option Str
  metadata : Metadata
deriving DecidableEq

/-- An embedding vector (row of the embeddings matrix). -/
abbrev Vec := List ℚ

/-- A search result: a copy of a chunk record with the `'similarity'`
key attached. -/
structure SearchResult where
  note : Note
  similarity : ℚ
deriving DecidableEq

/-!
## Retriever / Ranker (`chat_app.py`, `search_notes`)

`np.argsort(similarities)` is modelled by a stable insertion sort of the
index list `[0, ..., n-1]` by ascending similarity (numpy's quicksort tie
order is deterministic but unspecified; no proved property depends on
it).  `[::-1]` is `List.reverse`.  The external encoder (`model.encode`)
and sklearn's `cosine_similarity` are explicit parameters.
-/

/-- Ascending comparison of indices by their similarity score. -/
def simLE (sims : List ℚ) (i j : ℕ) : Prop :=
  sims.getD i 0 ≤ sims.getD j 0

instance (sims : List ℚ) : DecidableRel (simLE sims) := fun _ _ =>
  inferInstanceAs (Decidable (_ ≤ _))

/-- `np.argsort(similarities)[::-1]`: indices sorted by descending
similarity. -/
def argsortDesc (sims : List ℚ) : List ℕ :=
  (List.insertionSort (simLE sims) (List.range sims.length)).reverse

/-- `search_notes(query, embeddings, notes, model, top_k)`
(`chat_app.py` lines 200–237).  `cos` is sklearn's `cosine_similarity`
restricted to one query row, `encode` is `model.encode` on a single
text.  The float threshold `0.1` is the rational `mkRat 1 10 = 1/10`
(written with `mkRat` so that terms evaluate by kernel reduction). -/
def searchNotes (cos : Vec → Vec → ℚ) (encode : Str → Vec) (query : Str)
    (embeddings : List Vec) (notes : List Note) (topK : ℕ) :
    List SearchResult :=
  if notes.length = 0 then []
  else
    let queryEmbedding := encode query
    let similarities := embeddings.map (cos queryEmbedding)
    let topIndices := (argsortDesc similarities).take topK
    topIndices.filterMap (fun idx =>
      if similarities.getD idx 0 > mkRat 1 10 then
        (notes.get? idx).map (fun note => ⟨note, similarities.getD idx 0⟩)
      else none)

/-!
## Generator boundary (`chat_app.py`, `query_ollama`;
`search.py`, `search_and_summarize`)

`ollama.chat(model=m, messages=[{'role': 'user', 'content': p}], ...)`
followed by `response['message']['content']` is modelled as
`gen m p : Except Str Str`: `.ok content` is a successful call,
`.error e` a raised exception with display string `e` (`str(e)`).
-/

/-- The prompt built by `create_summarization_prompt` (`search.py` lines
85–114).  `natToStr` and `showSim` render the enumeration index and the
`{:.2f}`-formatted similarity; their exact output never matters to the
claims. -/
def natToStr (n : ℕ) : Str := (toString n).data

/-- Two-decimal rendering of a similarity score (model of Python's
`f"{x:.2f}"` on the underlying float). -/
def showSim (q : ℚ) : Str :=
  let n : ℤ := ⌊q * 100 + 1/2⌋
  let sign : Str := if n < 0 then str "-" else str ""
  let m := n.natAbs
  sign ++ natToStr (m / 100) ++ str "." ++
    (if m % 100 < 10 then str "0" else str "") ++ natToStr (m % 100)

/-- `create_summarization_prompt(query, relevant_notes)`
(`search.py` lines 85–114). -/
def createSummarizationPrompt (query : Str)
    (relevantNotes : List SearchResult) : Str :=
  let context := (List.enumFrom 1 relevantNotes).foldl (fun acc p =>
    let (i, r) := p
    acc ++ str "\n\n--- Source " ++ natToStr i ++ str ": " ++ r.note.file
      ++ str " ---\n"
      ++ (match r.note.heading with
          | some h => str "Section: " ++ h ++ str "\n"
          | none => ([] : Str))
      ++ r.note.content
      ++ str "\n(Relevance Score: " ++ showSim r.similarity ++ str ")")
    ([] : Str)
  str "Based on the provided sources, give a brief overview for: \x22"
    ++ query
    ++ str "\x22\n\nKeep it concise - just 2-3 sentences highlighting the key points.\n\nSOURCES:"
    ++ context ++ str "\n\nOVERVIEW:"

/-- `query_ollama(prompt, model_name)` (`chat_app.py` lines 243–265):
the `try/except` around `ollama.chat` returns the response content on
success and the error string on any exception. -/
def queryOllama (gen : Str → Str → Except Str Str) (prompt : Str)
    (modelName : Str) : Str :=
  match gen modelName prompt with
  | .ok content => content
  | .error e => str "Error querying Ollama: " ++ e

/-- The dictionary returned by `search_and_summarize`. -/
structure SummaryResult where
  summary : Str
  sources : List SearchResult
  query : Str
deriving DecidableEq

/-- `search_and_summarize(query, embeddings, notes, model, ollama_model,
top_k)` (`search.py` lines 18–83).  The retrieval part repeats the
`search_notes` pipeline verbatim; the generation call is wrapped in
`try/except` that turns an exception into an error-string summary. -/
def searchAndSummarize (cos : Vec → Vec → ℚ) (encode : Str → Vec)
    (gen : Str → Str → Except Str Str) (query : Str)
    (embeddings : List Vec) (notes : List Note) (ollamaModel : Str)
    (topK : ℕ) : SummaryResult :=
  if notes.length = 0 then
    ⟨str "No notes available to search.", [], query⟩
  else
    let queryEmbedding := encode query
    let similarities := embeddings.map (cos queryEmbedding)
    let topIndices := (argsortDesc similarities).take topK
    let relevantNotes := topIndices.filterMap (fun idx =>
      if similarities.getD idx 0 > mkRat 1 10 then
        (notes.get? idx).map (fun note => ⟨note, similarities.getD idx 0⟩)
      else none)
    if relevantNotes = [] then
      ⟨str "No relevant information found for '" ++ query
        ++ str "' in your notes.", [], query⟩
    else
      let summaryPrompt := createSummarizationPrompt query relevantNotes
      let summary := match gen ollamaModel summaryPrompt with
        | .ok content => content
        | .error e => str "Error generating summary: " ++ e
      ⟨summary, relevantNotes, query⟩

/-!
## Sources browser (`sources.py`)

`is_daily_note` tests `'daily/' in file_path`, `'/daily/' in file_path`,
`file_path.startswith('daily/')`, and
`re.match(r'.*\d{4}-\d{2}-\d{2}\.md$', file_path)`.  The regex matcher is
implemented below following Python `re` semantics: `re.match` anchors at
the start; `.` does not match `'\n'`; `\d` is a decimal digit (ASCII
model); `$` matches at the end of the string or just before a single
trailing `'\n'`.
-/

/-- Does `l` begin with the 13 characters `\d{4}-\d{2}-\d{2}\.md`? -/
def dateMd13 (l : Str) : Bool :=
  match l with
  | a :: b :: c :: d :: '-' :: e :: f :: '-' :: g :: h :: '.' :: 'm' :: 'd' :: _ =>
    a.isDigit && b.isDigit && c.isDigit && d.isDigit && e.isDigit &&
    f.isDigit && g.isDigit && h.isDigit
  | _ => false

/-- The tail of the pattern `\d{4}-\d{2}-\d{2}\.md$`: the 13-character
date block followed by the `$` anchor (end of string, or a lone trailing
`'\n'`). -/
def checkDateMdEnd (l : Str) : Bool :=
  dateMd13 l && (decide (l.drop 13 = []) || decide (l.drop 13 = ['\n']))

/-- `re.match(r'.*\d{4}-\d{2}-\d{2}\.md$', file_path)` as a Boolean:
the leading `.*` consumes any number of non-`'\n'` characters from the
start of the string, then the date block and the anchor must match. -/
def dailyRegexMatch : Str → Bool
  | [] => false
  | c :: rest =>
    checkDateMdEnd (c :: rest) || (decide (c ≠ '\n') && dailyRegexMatch rest)

/-- `is_daily_note(file_path)` (`sources.py` lines 20–36). -/
def isDailyNote (filePath : Str) : Bool :=
  containsSub (str "daily/") filePath ||
  containsSub (str "/daily/") filePath ||
  pyStartsWith (str "daily/") filePath ||
  dailyRegexMatch filePath

/-- The classification chain inlined in `organize_sources_by_type`
(`sources.py` lines 69–78): `daily`, else `markdown` for `.md`, else
`text` for `.txt`, else `other`. -/
def fileTypeOf (filePath : Str) : Str :=
  if isDailyNote filePath then str "daily"
  else if pyEndsWith (str ".md") filePath then str "markdown"
  else if pyEndsWith (str ".txt") filePath then str "text"
  else str "other"

/-- A per-file source entry built by `organize_sources_by_type`. -/
structure SourceInfo where
  file : Str
  title : Str
  metadata : Metadata
  chunksCount : ℕ
  tags : List Str
  isDaily : Bool
deriving DecidableEq

/-- The four category lists of `sources_by_type`. -/
structure SourcesByType where
  daily : List SourceInfo
  markdown : List SourceInfo
  text : List SourceInfo
  other : List SourceInfo
deriving DecidableEq

/-- `sources_by_type[file_type].append(source_info)`. -/
def appendCat (acc : SourcesByType) (fileType : Str) (e : SourceInfo) :
    SourcesByType :=
  if fileType = str "daily" then { acc with daily := acc.daily ++ [e] }
  else if fileType = str "markdown" then
    { acc with markdown := acc.markdown ++ [e] }
  else if fileType = str "text" then { acc with text := acc.text ++ [e] }
  else { acc with other := acc.other ++ [e] }

/-- The loop of `organize_sources_by_type` (`sources.py` lines 62–90):
`notes` is the full record list (used for `chunks_count`), `seen` the set
of already-emitted files, and the last argument the remaining records. -/
def organizeGo (notes : List Note) (seen : List Str) (acc : SourcesByType) :
    List Note → SourcesByType
  | [] => acc
  | note :: rest =>
    let filePath := note.file
    if filePath ∈ seen then organizeGo notes seen acc rest
    else
      let fileType := fileTypeOf filePath
      let sourceInfo : SourceInfo :=
        { file := filePath
          title := note.title
          metadata := note.metadata
          chunksCount :=
            (notes.filter (fun n => decide (n.file = filePath))).length
          tags := note.metadata.tags
          isDaily := fileType = str "daily" }
      organizeGo notes (filePath :: seen) (appendCat acc fileType sourceInfo)
        rest

/-- `organize_sources_by_type(notes)` (`sources.py` lines 42–92). -/
def organizeSourcesByType (notes : List Note) : SourcesByType :=
  organizeGo notes [] ⟨[], [], [], []⟩ notes

/-!
## Wikilink resolution (`sources.py`, `resolve_wikilink`)

`pathlib.PurePath` semantics for `Path(file_path).stem`: the `name` is
the last path component after dropping empty and `'.'` components; the
`stem` removes the suffix starting at the last `'.'` of the name, but
only when that `'.'` is neither the first nor the last character of the
name.
-/

/-- `Path(p).name`. -/
def pathName (p : Str) : Str :=
  ((pySplitOn '/' p).filter
    (fun comp => decide (comp ≠ [] ∧ comp ≠ ['.']))).getLastD []

/-- `name.rfind('.')` as an `Option`. -/
def rfindDot (name : Str) : Option ℕ :=
  match name.reverse.findIdx? (· = '.') with
  | some k => some (name.length - 1 - k)
  | none => none

/-- `Path(p).stem`. -/
def stem (p : Str) : Str :=
  let name := pathName p
  match rfindDot name with
  | some i => if 0 < i ∧ i < name.length - 1 then name.take i else name
  | none => name

/-- `note.get('metadata', {}).get('title', '')`. -/
def metaTitleD (note : Note) : Str := note.metadata.title.getD []

/-- The first (exact-match) loop of `resolve_wikilink`
(`sources.py` lines 523–534); `wl` is the lowercased link text. -/
def resolveExact (wl : Str) : List Note → Option Str
  | [] => none
  | note :: rest =>
    let filePath := note.file
    let fileStem := pyLower (stem filePath)
    if fileStem = wl then some filePath
    else if pyLower (metaTitleD note) = wl then some filePath
    else resolveExact wl rest

/-- The second (partial-match) loop of `resolve_wikilink`
(`sources.py` lines 536–543). -/
def resolveFuzzy (wl : Str) : List Note → Option Str
  | [] => none
  | note :: rest =>
    let filePath := note.file
    let fileStem := pyLower (stem filePath)
    if containsSub wl fileStem || containsSub fileStem wl then some filePath
    else resolveFuzzy wl rest

/-- `resolve_wikilink(wikilink, notes)` (`sources.py` lines 510–545). -/
def resolveWikilink (wikilink : Str) (notes : List Note) : Option Str :=
  let wl := pyLower wikilink
  match resolveExact wl notes with
  | some f => some f
  | none => resolveFuzzy wl notes

example : isDailyNote (str "daily/2025-07-27.md") = true := by decide
example : isDailyNote (str "2025-07-27.md") = true := by decide
example : isDailyNote (str "notes/random.md") = false := by decide
example : isDailyNote (str "mydaily/a.txt") = true := by decide
example : isDailyNote (str "notes2025-07-27.md") = true := by decide
example : stem (str "notes/foo-bar.md") = str "foo-bar" := by decide
example : stem (str "a.tar.gz") = str "a.tar" := by decide
example : stem (str ".bashrc") = str ".bashrc" := by decide
example : stem (str "x/y/") = str "y" := by decide

/-!
## Helper lemmas
-/

/-- Any result produced by the threshold `filterMap` of the retrieval
pipeline carries the (strictly checked) score of its index. -/
theorem mem_threshold_filterMap {sims : List ℚ} {notes : List Note}
    {topIndices : List ℕ} {r : SearchResult}
    (hr : r ∈ topIndices.filterMap (fun idx =>
      if sims.getD idx 0 > mkRat 1 10 then
        (notes.get? idx).map (fun note => ⟨note, sims.getD idx 0⟩)
      else none)) :
    r.similarity > mkRat 1 10 := by
  rcases List.mem_filterMap.mp hr with ⟨idx, -, hidx⟩
  split at hidx
  · rcases Option.map_eq_some'.mp hidx with ⟨note, -, hnote⟩
    rw [← hnote]
    assumption
  · exact absurd hidx (by simp)

/-- Example inputs used by witness theorems. -/
def note0 : Note :=
  ⟨str "a.md", str "Alpha", str "Paragraph about cats.", 0, none, ⟨none, []⟩⟩

def cos0 : Vec → Vec → ℚ := fun _ _ => 1

def encode0 : Str → Vec := fun _ => []

def gen0 : Str → Str → Except Str Str := fun _ _ => .ok (str "ok")

example : searchNotes cos0 encode0 (str "cats") [[]] [note0] 5 =
    [⟨note0, 1⟩] := by decide

/-- The code's threshold `mkRat 1 10` is the rational `0.10`. -/
theorem rat_threshold_eq : (mkRat 1 10 : ℚ) = 1 / 10 := by
  norm_num [Rat.mkRat_eq_div]

/-- **C1** (Threshold law): for every query, embeddings matrix, and
chunk-record list, every result returned by `search_notes` and every
entry of the `sources` list returned by `search_and_summarize` carries a
similarity score strictly greater than 0.10; no returned search result
ever has similarity ≤ 0.10. -/
theorem c1_threshold_law (cos : Vec → Vec → ℚ) (encode : Str → Vec)
    (gen : Str → Str → Except Str Str) (query : Str)
    (embeddings : List Vec) (notes : List Note) (ollamaModel : Str)
    (topK : ℕ) (r : SearchResult) :
    (r ∈ searchNotes cos encode query embeddings notes topK →
      r.similarity > 1 / 10) ∧
    (r ∈ (searchAndSummarize cos encode gen query embeddings notes
        ollamaModel topK).sources → r.similarity > 1 / 10) := by
  constructor
  · intro hr
    rw [← rat_threshold_eq]
    unfold searchNotes at hr
    split at hr
    · simp at hr
    · exact mem_threshold_filterMap hr
  · intro hr
    rw [← rat_threshold_eq]
    unfold searchAndSummarize at hr
    split at hr
    · simp at hr
    · dsimp only at hr
      split at hr
      · simp at hr
      · exact mem_threshold_filterMap hr

/-- Witness for C1: a concrete retrieval returning a result, whose score
exceeds 0.10 by the theorem. -/
theorem c1_threshold_law_witness :
    (⟨note0, 1⟩ : SearchResult).similarity > 1 / 10 :=
  (c1_threshold_law cos0 encode0 gen0 (str "cats") [[]] [note0] (str "m")
    5 ⟨note0, 1⟩).1 (by decide)

/-- **C3** (Empty-corpus law): for every query, when the chunk-record
list is empty, `search_notes` returns `[]` and `search_and_summarize`
returns its typed no-notes outcome with empty sources; both equalities
hold for *every* encoder `encode` and generator `gen`, so neither
external collaborator is invoked (the functions short-circuit before the
`model.encode` / `ollama.chat` call). -/
theorem c3_empty_corpus (cos : Vec → Vec → ℚ) (encode : Str → Vec)
    (gen : Str → Str → Except Str Str) (query : Str)
    (embeddings : List Vec) (ollamaModel : Str) (topK : ℕ) :
    searchNotes cos encode query embeddings [] topK = [] ∧
    searchAndSummarize cos encode gen query embeddings [] ollamaModel
      topK = ⟨str "No notes available to search.", [], query⟩ := by
  exact ⟨rfl, rfl⟩

/-- `search_and_summarize` returns one of three records: the no-notes
record, the no-relevant record, or the generation record carrying the
non-empty relevant-notes list and the `try/except`-guarded generator
output. -/
theorem searchAndSummarize_shape (cos : Vec → Vec → ℚ)
    (encode : Str → Vec) (gen : Str → Str → Except Str Str) (query : Str)
    (embeddings : List Vec) (notes : List Note) (ollamaModel : Str)
    (topK : ℕ) :
    searchAndSummarize cos encode gen query embeddings notes ollamaModel
        topK = ⟨str "No notes available to search.", [], query⟩ ∨
    searchAndSummarize cos encode gen query embeddings notes ollamaModel
        topK = ⟨str "No relevant information found for '" ++ query
          ++ str "' in your notes.", [], query⟩ ∨
    ∃ rel prompt, rel ≠ [] ∧
      searchAndSummarize cos encode gen query embeddings notes ollamaModel
        topK = ⟨(match gen ollamaModel prompt with
                 | .ok content => content
                 | .error e => str "Error generating summary: " ++ e),
                rel, query⟩ := by
  unfold searchAndSummarize
  split
  · exact Or.inl rfl
  · dsimp only
    split
    · exact Or.inr (Or.inl rfl)
    · exact Or.inr (Or.inr ⟨_, _, by assumption, rfl⟩)

/-- **C9** (Generation failure containment): when the external generation
call raises (modelled by a generator that returns `.error e` for every
prompt), `query_ollama` returns the human-readable error string, and
`search_and_summarize` still returns a full record: its summary is the
generation-error string whenever the generation path was reached
(non-empty sources), and one of the two no-result strings otherwise.  No
exception propagates: both functions are total and never transmit
`.error`. -/
theorem c9_generation_failure (cos : Vec → Vec → ℚ) (encode : Str → Vec)
    (e : Str) (prompt query : Str) (embeddings : List Vec)
    (notes : List Note) (ollamaModel modelName : Str) (topK : ℕ) :
    queryOllama (fun _ _ => .error e) prompt modelName =
      str "Error querying Ollama: " ++ e ∧
    ((searchAndSummarize cos encode (fun _ _ => .error e) query embeddings
        notes ollamaModel topK).sources ≠ [] →
      (searchAndSummarize cos encode (fun _ _ => .error e) query embeddings
        notes ollamaModel topK).summary =
        str "Error generating summary: " ++ e) ∧
    ((searchAndSummarize cos encode (fun _ _ => .error e) query embeddings
        notes ollamaModel topK).sources = [] →
      (searchAndSummarize cos encode (fun _ _ => .error e) query embeddings
        notes ollamaModel topK).summary =
          str "No notes available to search." ∨
      (searchAndSummarize cos encode (fun _ _ => .error e) query embeddings
        notes ollamaModel topK).summary =
          str "No relevant information found for '" ++ query
            ++ str "' in your notes.") := by
  refine ⟨rfl, ?_, ?_⟩
  · intro h
    rcases searchAndSummarize_shape cos encode (fun _ _ => .error e) query
        embeddings notes ollamaModel topK with h1 | h1 | ⟨rel, p, -, h1⟩ <;>
        rw [h1] at h ⊢ <;>
      first
        | rfl
        | exact absurd rfl h
  · intro h
    rcases searchAndSummarize_shape cos encode (fun _ _ => .error e) query
        embeddings notes ollamaModel topK with h1 | h1 | ⟨rel, p, hne, h1⟩ <;>
        rw [h1] at h ⊢ <;>
      first
        | exact Or.inl rfl
        | exact Or.inr rfl
        | exact absurd h hne

/-- Witness for C9: a concrete failing generation with non-empty sources
yields the error-string summary. -/
theorem c9_generation_failure_witness :
    (searchAndSummarize cos0 encode0 (fun _ _ => .error (str "boom"))
      (str "q") [[]] [note0] (str "m") 10).summary =
      str "Error generating summary: " ++ str "boom" :=
  (c9_generation_failure cos0 encode0 (str "boom") (str "p") (str "q")
    [[]] [note0] (str "m") (str "m2") 10).2.1 (by decide)

/-!
## C8: wikilink resolution order
-/

/-- The exact-match predicate of `resolve_wikilink`'s first loop: the
record's file stem or metadata title equals the link text,
case-insensitively. -/
def exactMatchPred (wikilink : Str) (note : Note) : Bool :=
  pyLower (stem note.file) = pyLower wikilink ∨
  pyLower (metaTitleD note) = pyLower wikilink

/-- The fuzzy-match predicate of `resolve_wikilink`'s second loop: the
link text is a substring of the record's stem, or the stem is a substring
of the link text (both lowercased). -/
def fuzzyMatchPred (wikilink : Str) (note : Note) : Bool :=
  containsSub (pyLower wikilink) (pyLower (stem note.file)) ||
  containsSub (pyLower (stem note.file)) (pyLower wikilink)

/-- The first loop returns the file of the first record satisfying the
exact-match predicate. -/
theorem resolveExact_eq_find (wl : Str) (notes : List Note) :
    resolveExact (pyLower wl) notes =
      (notes.find? (exactMatchPred wl)).map Note.file := by
  induction notes with
  | nil => rfl
  | cons note rest ih =>
    by_cases h1 : pyLower (stem note.file) = pyLower wl
    · simp [resolveExact, List.find?_cons, exactMatchPred, h1]
    · by_cases h2 : pyLower (metaTitleD note) = pyLower wl
      · simp [resolveExact, List.find?_cons, exactMatchPred, h1, h2]
      · have hstep : resolveExact (pyLower wl) (note :: rest) =
            resolveExact (pyLower wl) rest := by
          simp [resolveExact, h1, h2]
        have hpred : exactMatchPred wl note = false := by
          simp [exactMatchPred, h1, h2]
        rw [hstep, ih, List.find?_cons, hpred]

/-- The second loop returns the file of the first record satisfying the
fuzzy-match predicate. -/
theorem resolveFuzzy_eq_find (wl : Str) (notes : List Note) :
    resolveFuzzy (pyLower wl) notes =
      (notes.find? (fuzzyMatchPred wl)).map Note.file := by
  induction notes with
  | nil => rfl
  | cons note rest ih =>
    by_cases h1 : (containsSub (pyLower wl) (pyLower (stem note.file)) ||
        containsSub (pyLower (stem note.file)) (pyLower wl)) = true
    · simp [resolveFuzzy, List.find?_cons, fuzzyMatchPred, h1]
    · have hstep : resolveFuzzy (pyLower wl) (note :: rest) =
          resolveFuzzy (pyLower wl) rest := by
        simp only [resolveFuzzy, if_neg h1]
      have hpred : fuzzyMatchPred wl note = false := by
        simpa [fuzzyMatchPred] using h1
      rw [hstep, ih, List.find?_cons, hpred]

/-- **C8** (Wikilink resolution order): `resolve_wikilink` returns the
file of the first record whose stem or metadata title equals the link
text case-insensitively; when no exact match exists, the file of the
first record (in chunk-record scan order) whose stem contains the link
text or whose stem is contained in it; and when neither pass matches,
the not-found value `none`. -/
theorem c8_wikilink_resolution (wikilink : Str) (notes : List Note) :
    resolveWikilink wikilink notes =
      match (notes.find? (exactMatchPred wikilink)).map Note.file with
      | some f => some f
      | none => (notes.find? (fuzzyMatchPred wikilink)).map Note.file := by
  unfold resolveWikilink
  dsimp only
  rw [resolveExact_eq_find, resolveFuzzy_eq_find]

/-!
## C7: daily classification
-/

/-- `pat in s` is exactly substring (infix) containment. -/
theorem containsSub_iff (pat s : Str) :
    containsSub pat s = true ↔ pat <:+: s := by
  unfold containsSub
  rw [List.any_eq_true]
  constructor
  · rintro ⟨t, ht, hp⟩
    exact List.infix_iff_prefix_suffix.mpr
      ⟨t, List.isPrefixOf_iff_prefix.mp hp, (List.mem_tails _ _).mp ht⟩
  · intro h
    rcases List.infix_iff_prefix_suffix.mp h with ⟨t, hp, hs⟩
    exact ⟨t, (List.mem_tails _ _).mpr hs, List.isPrefixOf_iff_prefix.mpr hp⟩

/-- The three `daily/` membership tests of `is_daily_note` collapse to
plain substring containment of `'daily/'`: the other two each imply it. -/
theorem isDailyNote_eq_collapsed (p : Str) :
    isDailyNote p = (containsSub (str "daily/") p || dailyRegexMatch p) := by
  unfold isDailyNote
  by_cases h : containsSub (str "daily/") p = true
  · simp [h]
  · have h2 : containsSub (str "/daily/") p = false := by
      rw [Bool.eq_false_iff]
      intro hc
      exact absurd (containsSub_iff _ _ |>.mpr
        ((by decide : (str "daily/") <:+: (str "/daily/")).trans
          ((containsSub_iff _ _).mp hc))) h
    have h3 : pyStartsWith (str "daily/") p = false := by
      rw [Bool.eq_false_iff]
      intro hc
      exact absurd ((containsSub_iff _ _).mpr
        (List.isPrefixOf_iff_prefix.mp hc).isInfix) h
    simp [h, h2, h3]

/-- The daily-name condition actually implemented by the code's regex
`.*\d{4}-\d{2}-\d{2}\.md$`: the path decomposes into a newline-free
prefix followed by a block passing the date-and-anchor check (a
`\d{4}-\d{2}-\d{2}\.md` group ending the string, or ending it except for
one final `'\n'`). -/
def DatePathAmended (p : Str) : Prop :=
  ∃ a b, p = a ++ b ∧ (∀ c ∈ a, c ≠ '\n') ∧ checkDateMdEnd b = true

/-- The scanning matcher is equivalent to the prefix/suffix
decomposition. -/
theorem dailyRegexMatch_iff (p : Str) :
    dailyRegexMatch p = true ↔ DatePathAmended p := by
  induction p with
  | nil =>
    simp only [dailyRegexMatch, Bool.false_eq_true, false_iff]
    rintro ⟨a, b, hab, -, hb⟩
    rw [List.nil_eq_append_iff] at hab
    rw [hab.2] at hb
    exact absurd hb (by decide)
  | cons c rest ih =>
    unfold dailyRegexMatch
    rw [Bool.or_eq_true, Bool.and_eq_true, decide_eq_true_iff, ih]
    constructor
    · rintro (h | ⟨hc, a, b, hab, ha, hb⟩)
      · exact ⟨[], c :: rest, rfl, by simp, h⟩
      · exact ⟨c :: a, b, by rw [hab]; rfl,
          by simpa [hc] using ha, hb⟩
    · rintro ⟨a, b, hab, ha, hb⟩
      cases a with
      | nil =>
        rw [List.nil_append] at hab
        rw [← hab] at hb
        exact Or.inl hb
      | cons a0 atl =>
        rw [List.cons_append, List.cons.injEq] at hab
        refine Or.inr ⟨hab.1 ▸ ha a0 (by simp), atl, b, hab.2, ?_, hb⟩
        intro x hx
        exact ha x (by simp [hx])

/-- The original claim's daily condition, modelled from the spec's words:
the relative path contains a `daily/` *path segment* — a whole component
named `daily` followed by `/` — at start, middle, or end. -/
def hasDailySegmentSpec (p : Str) : Bool :=
  ((pySplitOn '/' p).dropLast).any (fun comp => decide (comp = str "daily"))

/-- The original claim's filename condition, modelled from the spec's
words: the file's name (last path component) is *exactly* the literal
pattern `YYYY-MM-DD.md`. -/
def filenameDateSpec (p : Str) : Bool :=
  let name := (pySplitOn '/' p).getLastD []
  decide (name.length = 13) && dateMd13 name

/-- Counterexample to C7 as stated: `is_daily_note("mydaily/a.txt")` is
true because `'daily/' in file_path` is a plain substring test, although
`mydaily/a.txt` has neither a `daily/` path segment nor a
`YYYY-MM-DD.md` filename; the claimed "exactly when" equivalence fails.
Likewise `notes2025-07-27.md` is classified daily although its filename
only *ends* with the date pattern. -/
theorem c7_daily_classification_counterexample :
    isDailyNote (str "mydaily/a.txt") = true ∧
    hasDailySegmentSpec (str "mydaily/a.txt") = false ∧
    filenameDateSpec (str "mydaily/a.txt") = false ∧
    isDailyNote (str "notes2025-07-27.md") = true ∧
    hasDailySegmentSpec (str "notes2025-07-27.md") = false ∧
    filenameDateSpec (str "notes2025-07-27.md") = false := by decide

/-- **C7**, amended: `is_daily_note` returns true exactly when the
relative path contains `daily/` as a *substring* (not necessarily a whole
path segment) or the path decomposes as a newline-free prefix followed by
a `\d{4}-\d{2}-\d{2}\.md` block ending the string (up to one trailing
newline) — so a filename merely *ending* with a date pattern also counts.
Otherwise the classification used by `organize_sources_by_type` is
`markdown` for `.md`, `text` for `.txt`, else `other`.  The claim's three
concrete examples behave as stated. -/
theorem c7_daily_classification_amended (p : Str) :
    (isDailyNote p = true ↔
      containsSub (str "daily/") p = true ∨ DatePathAmended p) ∧
    (isDailyNote p = false →
      fileTypeOf p = if pyEndsWith (str ".md") p then str "markdown"
        else if pyEndsWith (str ".txt") p then str "text"
        else str "other") ∧
    isDailyNote (str "daily/2025-07-27.md") = true ∧
    isDailyNote (str "2025-07-27.md") = true ∧
    isDailyNote (str "notes/random.md") = false := by
  refine ⟨?_, ?_, by decide, by decide, by decide⟩
  · rw [isDailyNote_eq_collapsed, Bool.or_eq_true, dailyRegexMatch_iff]
  · intro h
    simp [fileTypeOf, h]

/-- Witness for the amended C7 at a concrete path. -/
theorem c7_daily_classification_amended_witness :
    fileTypeOf (str "notes/random.md") = str "markdown" :=
  ((c7_daily_classification_amended (str "notes/random.md")).2.1
    (by decide)).trans (by decide)

/-!
## C10: source-summary partition invariant
-/

/-- All entries produced by `organize_sources_by_type`, across the four
category lists. -/
def allSources (s : SourcesByType) : List SourceInfo :=
  s.daily ++ s.markdown ++ s.text ++ s.other

/-- `appendCat` adds exactly one entry, into exactly one category. -/
theorem countP_appendCat (acc : SourcesByType) (t : Str) (e : SourceInfo)
    (p : SourceInfo → Bool) :
    (allSources (appendCat acc t e)).countP p =
      (allSources acc).countP p + [e].countP p := by
  unfold appendCat allSources
  split_ifs <;>
    simp [List.countP_append, List.countP_cons] <;> omega

/-- Membership in the result of `appendCat`. -/
theorem mem_appendCat {acc : SourcesByType} {t : Str} {e x : SourceInfo} :
    x ∈ allSources (appendCat acc t e) ↔ x ∈ allSources acc ∨ x = e := by
  unfold appendCat allSources
  split_ifs <;> simp [List.mem_append] <;> tauto

/-- Count invariant of the `organize_sources_by_type` loop: starting from
an accumulator holding exactly one entry per file of `seen`, the loop
ends with exactly one entry per file of `seen` or of the remaining
records. -/
theorem organizeGo_countP (notes : List Note) (rem : List Note) :
    ∀ (seen : List Str) (acc : SourcesByType) (f : Str),
    (∀ g : Str, (allSources acc).countP (fun x => decide (x.file = g)) =
      if g ∈ seen then 1 else 0) →
    (allSources (organizeGo notes seen acc rem)).countP
        (fun x => decide (x.file = f)) =
      if f ∈ seen ∨ f ∈ rem.map Note.file then 1 else 0 := by
  induction rem with
  | nil =>
    intro seen acc f hacc
    simpa [organizeGo] using hacc f
  | cons n rest ih =>
    intro seen acc f hacc
    unfold organizeGo
    by_cases hs : n.file ∈ seen
    · rw [if_pos hs, ih seen acc f hacc]
      by_cases hf : f ∈ seen
      · simp [hf]
      · have : f ≠ n.file := fun h => hf (h ▸ hs)
        simp [hf, this]
    · rw [if_neg hs]
      dsimp only
      rw [ih (n.file :: seen) _ f]
      · by_cases hf : f = n.file
        · subst hf
          simp
        · simp [hf]
      · intro g
        rw [countP_appendCat, hacc g]
        by_cases hg : g = n.file
        · subst hg
          simp [hs]
        · have : ¬(n.file = g) := fun h => hg h.symm
          simp [List.mem_cons, hg, this]

/-- Entry-content invariant of the loop: every produced entry either was
already in the accumulator or is built from the first record of its file
in `notes`. -/
theorem organizeGo_mem (notes : List Note) (rem : List Note) :
    ∀ (seen : List Str) (acc : SourcesByType) (e : SourceInfo),
    (∀ f : Str, f ∉ seen →
      notes.find? (fun n => decide (n.file = f)) =
        rem.find? (fun n => decide (n.file = f))) →
    e ∈ allSources (organizeGo notes seen acc rem) →
    e ∈ allSources acc ∨
    ∃ first, notes.find? (fun n => decide (n.file = e.file)) = some first ∧
      e.title = first.title ∧ e.metadata = first.metadata ∧
      e.tags = first.metadata.tags ∧
      e.chunksCount =
        (notes.filter (fun n => decide (n.file = e.file))).length := by
  induction rem with
  | nil =>
    intro seen acc e _ he
    exact Or.inl (by simpa [organizeGo] using he)
  | cons n rest ih =>
    intro seen acc e hfind he
    unfold organizeGo at he
    by_cases hs : n.file ∈ seen
    · rw [if_pos hs] at he
      refine ih seen acc e ?_ he
      intro f hf
      rw [hfind f hf]
      exact List.find?_cons_of_neg _
        (fun hp => hf ((of_decide_eq_true hp) ▸ hs))
    · rw [if_neg hs] at he
      dsimp only at he
      have hfind' : ∀ f : Str, f ∉ (n.file :: seen) →
          notes.find? (fun m => decide (m.file = f)) =
            rest.find? (fun m => decide (m.file = f)) := by
        intro f hf
        rw [List.mem_cons, not_or] at hf
        rw [hfind f hf.2]
        exact List.find?_cons_of_neg _
          (fun hp => hf.1 (of_decide_eq_true hp).symm)
      rcases ih (n.file :: seen) _ e hfind' he with hacc | hfound
      · rcases mem_appendCat.mp hacc with h | h
        · exact Or.inl h
        · subst h
          refine Or.inr ⟨n, ?_, rfl, rfl, rfl, rfl⟩
          rw [hfind n.file hs]
          exact List.find?_cons_of_pos _ (by simp)
      · exact Or.inr hfound

/-- **C10** (Source-summary partition invariant): for every chunk-record
list, `organize_sources_by_type` produces exactly one source entry per
distinct `file` value, placed in exactly one of the four category lists
(the count over the concatenation of `daily`, `markdown`, `text`, `other`
is 1 for each present file and 0 otherwise); the entry's `chunks_count`
equals the number of records with that `file`, and its title, metadata,
and tags come from the first record of that file in list order. -/
theorem c10_source_partition (notes : List Note) (e : SourceInfo)
    (f : Str) :
    ((allSources (organizeSourcesByType notes)).countP
        (fun x => decide (x.file = f)) =
      if f ∈ notes.map Note.file then 1 else 0) ∧
    (e ∈ allSources (organizeSourcesByType notes) →
      ∃ first, notes.find? (fun n => decide (n.file = e.file)) =
          some first ∧
        e.title = first.title ∧ e.metadata = first.metadata ∧
        e.tags = first.metadata.tags ∧
        e.chunksCount =
          (notes.filter (fun n => decide (n.file = e.file))).length) := by
  constructor
  · have h := organizeGo_countP notes notes [] ⟨[], [], [], []⟩ f
      (by intro g; simp [allSources])
    unfold organizeSourcesByType
    simpa using h
  · intro he
    unfold organizeSourcesByType at he
    rcases organizeGo_mem notes notes [] ⟨[], [], [], []⟩ e
        (fun _ _ => rfl) he with h | h
    · simp [allSources] at h
    · exact h

/-- Concrete records used by the C10 witness: two chunks of one daily
file and one chunk of a text file. -/
def noteA0 : Note :=
  ⟨str "daily/2025-07-27.md", str "Day note", str "x", 0, none,
    ⟨some (str "Day note"), [str "log"]⟩⟩

def noteA1 : Note :=
  ⟨str "daily/2025-07-27.md", str "Day note", str "y", 1, none,
    ⟨some (str "Day note"), [str "log"]⟩⟩

def noteB0 : Note := ⟨str "b.txt", str "b", str "z", 0, none, ⟨none, []⟩⟩

def notesW : List Note := [noteA0, noteA1, noteB0]

/-- The daily entry `organize_sources_by_type` produces for `notesW`. -/
def entryA : SourceInfo :=
  ⟨str "daily/2025-07-27.md", str "Day note",
    ⟨some (str "Day note"), [str "log"]⟩, 2, [str "log"], true⟩

/-- Witness for C10 at a concrete record list. -/
theorem c10_source_partition_witness :
    ∃ first,
      notesW.find? (fun n => decide (n.file = entryA.file)) = some first ∧
      entryA.title = first.title ∧ entryA.metadata = first.metadata ∧
      entryA.tags = first.metadata.tags ∧
      entryA.chunksCount =
        (notesW.filter (fun n => decide (n.file = entryA.file))).length :=
  (c10_source_partition notesW entryA (str "daily/2025-07-27.md")).2
    (by decide)

/-!
## C2: ranking monotonicity
-/

/-- `filterMap` preserves the prefix relation. -/
theorem filterMap_isPrefix {α β : Type} (g : α → Option β)
    {l1 l2 : List α} (h : l1 <+: l2) :
    l1.filterMap g <+: l2.filterMap g := by
  rcases h with ⟨t, rfl⟩
  exact ⟨t.filterMap g, (List.filterMap_append _ _ _).symm⟩

/-- The reversed argsort is pairwise descending in similarity. -/
theorem argsortDesc_pairwise (sims : List ℚ) :
    (argsortDesc sims).Pairwise
      (fun i j => sims.getD j 0 ≤ sims.getD i 0) := by
  unfold argsortDesc
  rw [List.pairwise_reverse]
  haveI : IsTotal ℕ (simLE sims) := ⟨fun i j => le_total _ _⟩
  haveI : IsTrans ℕ (simLE sims) :=
    ⟨fun _ _ _ hab hbc => le_trans hab hbc⟩
  exact List.sorted_insertionSort (simLE sims) (List.range sims.length)

/-- **C2** (Ranking monotonicity): for a fixed query, embeddings matrix,
and chunk-record list, the result list of `search_notes` with
`top_k = k` is sorted in descending order of similarity and is a prefix
of the result list with `top_k = k + n`. -/
theorem c2_ranking_monotonicity (cos : Vec → Vec → ℚ)
    (encode : Str → Vec) (query : Str) (embeddings : List Vec)
    (notes : List Note) (k n : ℕ) :
    ((searchNotes cos encode query embeddings notes k).map
        SearchResult.similarity).Sorted (· ≥ ·) ∧
    searchNotes cos encode query embeddings notes k <+:
      searchNotes cos encode query embeddings notes (k + n) := by
  unfold searchNotes
  split
  · exact ⟨List.sorted_nil, List.prefix_rfl⟩
  · dsimp only
    constructor
    · rw [List.Sorted, List.pairwise_map]
      refine List.Pairwise.filterMap _ ?_
        ((argsortDesc_pairwise _).sublist (List.take_sublist _ _))
      intro i j hij x hx y hy
      rw [Option.mem_def] at hx hy
      split at hx
      · split at hy
        · rcases Option.map_eq_some'.mp hx with ⟨nx, -, hnx⟩
          rcases Option.map_eq_some'.mp hy with ⟨ny, -, hny⟩
          rw [← hnx, ← hny]
          exact hij
        · exact absurd hy (by simp)
      · exact absurd hx (by simp)
    · refine filterMap_isPrefix _ ?_
      rw [show List.take k (argsortDesc (embeddings.map
            (cos (encode query)))) =
          List.take k (List.take (k + n) (argsortDesc (embeddings.map
            (cos (encode query))))) from by
        rw [List.take_take, min_eq_left (Nat.le_add_right k n)]]
      exact List.take_prefix _ _

/-!
## C6: chunker overlap seeding
-/

/-- The text after the last `'.'` of `s` (all of `s` when it has no
`'.'`): the final sentence used for chunk overlap. -/
def afterLastDot (s : Str) : Str :=
  (s.reverse.takeWhile (· ≠ '.')).reverse

/-- `pySplitOn` never returns the empty list. -/
theorem pySplitOn_ne_nil (sep : Char) (s : Str) : pySplitOn sep s ≠ [] := by
  induction s with
  | nil => simp [pySplitOn]
  | cons c rest ih =>
    unfold pySplitOn
    split
    · simp
    · match h : pySplitOn sep rest with
      | [] => exact absurd h ih
      | p :: ps => simp

/-- `s.split(sep)` has more than one piece exactly when `sep` occurs. -/
theorem pySplitOn_length_gt_one (sep : Char) (s : Str) :
    (pySplitOn sep s).length > 1 ↔ sep ∈ s := by
  induction s with
  | nil => simp [pySplitOn]
  | cons c rest ih =>
    unfold pySplitOn
    by_cases hc : c = sep
    · rw [if_pos hc]
      have := List.length_pos.mpr (pySplitOn_ne_nil sep rest)
      simp only [List.length_cons, List.mem_cons]
      constructor
      · intro _
        exact Or.inl hc.symm
      · intro _
        omega
    · rw [if_neg hc]
      match h : pySplitOn sep rest with
      | [] => exact absurd h (pySplitOn_ne_nil sep rest)
      | p :: ps =>
        rw [h] at ih
        have hsc : (sep = c) = False := eq_false (fun hh => hc hh.symm)
        simp only [List.length_cons] at ih ⊢
        simp only [List.mem_cons, hsc, false_or]
        exact ih

/-- Dropping a non-satisfying final element does not change `takeWhile`. -/
theorem takeWhile_append_last {p : Char → Bool} (l : Str) (a : Char)
    (h : p a = false) : (l ++ [a]).takeWhile p = l.takeWhile p := by
  induction l with
  | nil => simp [List.takeWhile, h]
  | cons b t ih =>
    simp only [List.cons_append, List.takeWhile_cons]
    split <;> simp [ih]

/-- `takeWhile` stops inside `l` when some element of `l` fails `p`. -/
theorem takeWhile_append_of_mem {p : Char → Bool} (l l' : Str) (a : Char)
    (ha : a ∈ l) (h : p a = false) :
    (l ++ l').takeWhile p = l.takeWhile p := by
  induction l with
  | nil => simp at ha
  | cons b t ih =>
    simp only [List.cons_append, List.takeWhile_cons]
    rcases List.mem_cons.mp ha with rfl | hat
    · simp [h]
    · split
      · rw [ih hat]
      · rfl

/-- `takeWhile` keeps everything when every element satisfies `p`. -/
theorem takeWhile_all {p : Char → Bool} (l : Str)
    (h : ∀ a ∈ l, p a = true) : l.takeWhile p = l := by
  induction l with
  | nil => rfl
  | cons b t ih =>
    rw [List.takeWhile_cons, if_pos (h b (by simp))]
    rw [ih (fun a ha => h a (by simp [ha]))]

/-- The last piece of `s.split(sep)` is the text after the last `sep`. -/
theorem pySplitOn_getLastD (sep : Char) (s : Str) :
    (pySplitOn sep s).getLastD [] =
      (s.reverse.takeWhile (· ≠ sep)).reverse := by
  induction s with
  | nil => rfl
  | cons c rest ih =>
    unfold pySplitOn
    by_cases hc : c = sep
    · subst hc
      rw [if_pos rfl, List.getLastD_cons, ih, List.reverse_cons,
        takeWhile_append_last _ _ (by simp)]
    · rw [if_neg hc]
      match hL : pySplitOn sep rest with
      | [] => exact absurd hL (pySplitOn_ne_nil sep rest)
      | p :: ps =>
        rw [hL] at ih
        dsimp only
        cases ps with
        | nil =>
          have hnosep : sep ∉ rest := by
            intro hm
            have h2 := (pySplitOn_length_gt_one sep rest).mpr hm
            rw [hL] at h2
            simp at h2
          have hall : List.takeWhile (fun x => decide (x ≠ sep))
              rest.reverse = rest.reverse := takeWhile_all _ (by
            intro a ha
            simp only [ne_eq, decide_eq_true_eq]
            exact fun haa => hnosep (haa ▸ (List.mem_reverse.mp ha)))
          have hp : p = rest := by
            rw [show (fun x => decide (x ≠ sep)) =
                (fun x : Char => decide (¬x = sep)) from rfl] at ih
            rw [hall] at ih
            simpa using ih
          rw [List.getLastD_cons, List.getLastD_nil, hp,
            List.reverse_cons,
            takeWhile_all _ (by
              intro a ha
              rcases List.mem_append.mp ha with ha | ha
              · simp only [ne_eq, decide_eq_true_eq]
                exact fun haa => hnosep (haa ▸ (List.mem_reverse.mp ha))
              · simp only [List.mem_singleton] at ha
                subst ha
                simpa using hc),
            List.reverse_append]
          simp
        | cons q qs =>
          have hsep : sep ∈ rest := by
            apply (pySplitOn_length_gt_one sep rest).mp
            rw [hL]
            simp
          have hgl : (q :: qs).getLastD (c :: p) = (q :: qs).getLastD p := by
            rw [List.getLastD_cons, List.getLastD_cons]
          rw [List.getLastD_cons, hgl, ← List.getLastD_cons ([] : Str), ih,
            List.reverse_cons,
            takeWhile_append_of_mem _ _ sep (List.mem_reverse.mpr hsep)
              (by simp)]

/-- Counterexample to C6 as stated: on `"aaaa.bbbb\n\ncccc"` with
`max_length = 10`, the buffer `"aaaa.bbbb"` is closed and the next
buffer is seeded as `"bbbb. cccc"` — the text after the last `'.'`
(`"bbbb"`), then the two-character separator `". "`, then the new
segment — not "exactly the text after the last `'.'` concatenated with
the new segment", which would be `"bbbbcccc"`. -/
theorem c6_overlap_seeding_counterexample :
    chunkText (str "aaaa.bbbb\n\ncccc") (str "f") 10 =
      [str "aaaa.bbbb", str "bbbb. cccc"] ∧
    str "bbbb. cccc" ≠
      afterLastDot (str "aaaa.bbbb") ++ str "cccc" ∧
    afterLastDot (str "aaaa.bbbb") = str "bbbb" := by decide

/-- **C6**, amended: whenever adding the next (stripped, non-empty)
segment would make the non-empty running buffer exceed `max_length`, the
loop body closes the stripped buffer as a chunk, and seeds the next
buffer with the text after the last `'.'` of the just-closed buffer,
*followed by the literal separator `". "`*, followed by the new segment;
if the closed buffer contains no `'.'`, the next buffer is just the new
segment. -/
theorem c6_overlap_seeding_amended (maxLength : ℕ) (chunks : List Str)
    (currentChunk para : Str) (hpara : pyStrip para ≠ [])
    (hcur : currentChunk ≠ [])
    (hexceed : currentChunk.length + (pyStrip para).length > maxLength) :
    chunkStep maxLength (chunks, currentChunk) para =
      (chunks ++ [pyStrip currentChunk],
        if '.' ∈ currentChunk then
          afterLastDot currentChunk ++ str ". " ++ pyStrip para
        else pyStrip para) := by
  unfold chunkStep
  rw [if_neg (by simpa using hpara)]
  dsimp only
  rw [if_pos ⟨hexceed, hcur⟩]
  by_cases hdot : '.' ∈ currentChunk
  · rw [if_pos hdot,
      if_pos ((pySplitOn_length_gt_one '.' currentChunk).mpr hdot),
      pySplitOn_getLastD]
    rfl
  · rw [if_neg hdot, if_neg (by
      intro hgt
      exact hdot ((pySplitOn_length_gt_one '.' currentChunk).mp hgt))]

/-- Witness for the amended C6 at the counterexample input. -/
theorem c6_overlap_seeding_amended_witness :
    chunkStep 10 ([], str "aaaa.bbbb") (str "cccc") =
      ([str "aaaa.bbbb"],
        if '.' ∈ str "aaaa.bbbb" then
          afterLastDot (str "aaaa.bbbb") ++ str ". " ++
            pyStrip (str "cccc")
        else pyStrip (str "cccc")) :=
  c6_overlap_seeding_amended 10 [] (str "aaaa.bbbb") (str "cccc")
    (by decide) (by decide) (by decide)

/-!
## C4/C5: chunker length and non-emptiness

Facts about `str.strip()` (`pyStrip`), the splitter's character
provenance, and the accumulation-loop invariant.
-/

/-- `pyStrip` is `rdropWhile ∘ dropWhile`. -/
theorem pyStrip_eq_rdrop (s : Str) :
    pyStrip s = List.rdropWhile pyIsSpace (s.dropWhile pyIsSpace) := rfl

/-- A string strips to empty exactly when it is all whitespace. -/
theorem pyStrip_eq_nil_iff {s : Str} :
    pyStrip s = [] ↔ ∀ c ∈ s, pyIsSpace c = true := by
  rw [pyStrip_eq_rdrop, List.rdropWhile_eq_nil_iff]
  constructor
  · intro h c hc
    rcases List.mem_append.mp
        ((List.takeWhile_append_dropWhile (p := pyIsSpace) (l := s)) ▸ hc)
      with hc | hc
    · exact List.mem_takeWhile_imp hc
    · exact h c hc
  · intro h c hc
    exact h c ((List.dropWhile_suffix pyIsSpace).sublist.subset hc)

/-- Stripping never lengthens. -/
theorem pyStrip_length_le (s : Str) : (pyStrip s).length ≤ s.length := by
  rw [pyStrip_eq_rdrop]
  calc (List.rdropWhile pyIsSpace (s.dropWhile pyIsSpace)).length
      ≤ (s.dropWhile pyIsSpace).length :=
        (List.rdropWhile_prefix _ _).length_le
    _ ≤ s.length := (List.dropWhile_suffix _).length_le

/-- A string containing a non-whitespace character does not strip to
empty. -/
theorem pyStrip_ne_nil_of_mem {s : Str} {c : Char} (hc : c ∈ s)
    (hw : pyIsSpace c = false) : pyStrip s ≠ [] := by
  intro h
  rw [pyStrip_eq_nil_iff] at h
  rw [h c hc] at hw
  exact absurd hw (by simp)

/-- A non-empty stripped string contains a non-whitespace character. -/
theorem exists_not_space_of_pyStrip_ne_nil {s : Str}
    (h : pyStrip s ≠ []) : ∃ c ∈ s, pyIsSpace c = false := by
  by_contra hall
  push_neg at hall
  exact h (pyStrip_eq_nil_iff.mpr (by
    intro c hc
    have := hall c hc
    revert this
    cases pyIsSpace c <;> simp))

/-- `strip` is idempotent. -/
theorem pyStrip_idem (s : Str) : pyStrip (pyStrip s) = pyStrip s := by
  rw [pyStrip_eq_rdrop, pyStrip_eq_rdrop]
  have h1 : List.dropWhile pyIsSpace
      (List.rdropWhile pyIsSpace (s.dropWhile pyIsSpace)) =
      List.rdropWhile pyIsSpace (s.dropWhile pyIsSpace) := by
    rcases List.rdropWhile_prefix pyIsSpace (s.dropWhile pyIsSpace)
      with ⟨t, ht⟩
    match hz : List.rdropWhile pyIsSpace (s.dropWhile pyIsSpace) with
    | [] => rfl
    | a :: z =>
      rw [hz] at ht
      rw [List.cons_append] at ht
      have ha : pyIsSpace a = false := by
        have hY := List.dropWhile_idempotent pyIsSpace s
        rw [← ht] at hY
        by_contra hpa
        rw [Bool.not_eq_false] at hpa
        rw [List.dropWhile_cons_of_pos hpa] at hY
        have := congrArg List.length hY
        have hle := (List.dropWhile_suffix pyIsSpace (l := z ++ t)).length_le
        simp [List.length_append] at this hle
        omega
      rw [List.dropWhile_cons_of_neg (by simp [ha])]
  rw [h1, List.rdropWhile_idempotent]

/-- Characters of every piece produced by the splitter come from the
accumulator or the remaining input (the splitter only drops whitespace
and never invents characters). -/
theorem splitGo_chars (fuel : ℕ) :
    ∀ (atLS : Bool) (acc l : Str), ∀ p ∈ splitGo fuel atLS acc l,
      ∀ ch ∈ p, ch ∈ acc ∨ ch ∈ l := by
  induction fuel with
  | zero =>
    intro atLS acc l p hp ch hch
    cases l <;> simp only [splitGo, List.mem_singleton] at hp <;>
      subst hp <;> exact Or.inl (List.mem_reverse.mp hch)
  | succ f ih =>
    intro atLS acc l p hp ch hch
    match l with
    | [] =>
      simp only [splitGo, List.mem_singleton] at hp
      subst hp
      exact Or.inl (List.mem_reverse.mp hch)
    | c :: rest =>
      cases hbm : blankMatch c rest with
      | some consumed =>
        simp only [splitGo, hbm] at hp
        rcases List.mem_cons.mp hp with rfl | hp'
        · exact Or.inl (List.mem_reverse.mp hch)
        · rcases ih true [] _ p hp' ch hch with h | h
          · simp at h
          · exact Or.inr (List.mem_cons.mpr
              (Or.inr (List.mem_of_mem_drop h)))
      | none =>
        simp only [splitGo, hbm] at hp
        by_cases hif : atLS = true ∧ headingAt (c :: rest) = true
        · rw [if_pos hif] at hp
          rcases List.mem_cons.mp hp with rfl | hp'
          · exact Or.inl (List.mem_reverse.mp hch)
          · rcases ih (c = '\n') [c] rest p hp' ch hch with h | h
            · exact Or.inr (List.mem_cons.mpr
                (Or.inl (List.mem_singleton.mp h)))
            · exact Or.inr (List.mem_cons.mpr (Or.inr h))
        · rw [if_neg hif] at hp
          rcases ih (c = '\n') (c :: acc) rest p hp ch hch with h | h
          · rcases List.mem_cons.mp h with rfl | h'
            · exact Or.inr (List.mem_cons.mpr (Or.inl rfl))
            · exact Or.inl h'
          · exact Or.inr (List.mem_cons.mpr (Or.inr h))

/-- Characters of every raw segment come from the input text. -/
theorem splitSegments_chars {text p : Str} (hp : p ∈ splitSegments text)
    {ch : Char} (hch : ch ∈ p) : ch ∈ text := by
  rcases splitGo_chars text.length true [] text p hp ch hch with h | h
  · simp at h
  · exact h

/-- The shape every closed chunk of `chunk_text` can have: bounded by
`max_length + 2` (the `'\n\n'` joiner is not counted by the length
check), a single stripped segment kept intact, or a chunk seeded from
sentence overlap and closed before any join. -/
def GoodChunk (segs : List Str) (maxLength : ℕ) (c : Str) : Prop :=
  (c.length ≤ maxLength + 2 ∨
    (∃ p ∈ segs, c = pyStrip p) ∨
    (∃ s p, p ∈ segs ∧ c = pyStrip (s ++ str ". " ++ pyStrip p))) ∧
  pyStrip c ≠ []

/-- The invariant of the running buffer `current_chunk`. -/
def GoodCur (segs : List Str) (maxLength : ℕ) (cur : Str) : Prop :=
  cur = [] ∨
  (((∃ p ∈ segs, cur = pyStrip p) ∨
    (∃ s p, p ∈ segs ∧ cur = s ++ str ". " ++ pyStrip p) ∨
    cur.length ≤ maxLength + 2) ∧
   pyStrip cur ≠ [])

/-- A stripped, non-empty segment yields a fresh buffer satisfying the
invariant. -/
theorem goodCur_of_seg {segs : List Str} {maxLength : ℕ} {para : Str}
    (hpara : para ∈ segs) (hne : pyStrip para ≠ []) :
    GoodCur segs maxLength (pyStrip para) :=
  Or.inr ⟨Or.inl ⟨para, hpara, rfl⟩, by rwa [pyStrip_idem]⟩

/-- One loop iteration preserves the chunk and buffer invariants. -/
theorem chunkStep_inv (segs : List Str) (maxLength : ℕ)
    (chunks : List Str) (cur : Str) (para : Str) (hpara : para ∈ segs)
    (hchunks : ∀ c ∈ chunks, GoodChunk segs maxLength c)
    (hcur : GoodCur segs maxLength cur) :
    (∀ c ∈ (chunkStep maxLength (chunks, cur) para).1,
      GoodChunk segs maxLength c) ∧
    GoodCur segs maxLength (chunkStep maxLength (chunks, cur) para).2 := by
  unfold chunkStep
  by_cases h0 : pyStrip para = []
  · rw [if_pos h0]
    exact ⟨hchunks, hcur⟩
  · rw [if_neg h0]
    dsimp only
    by_cases hclose : cur.length + (pyStrip para).length > maxLength ∧
        cur ≠ []
    · rw [if_pos hclose]
      rcases hcur with rfl | ⟨hshape, hne⟩
      · exact absurd rfl hclose.2
      constructor
      · intro c hc
        rcases List.mem_append.mp hc with hc | hc
        · exact hchunks c hc
        · rw [List.mem_singleton.mp hc]
          refine ⟨?_, by rwa [pyStrip_idem]⟩
          rcases hshape with ⟨p, hp, rfl⟩ | ⟨s, p, hp, rfl⟩ | hlen
          · exact Or.inr (Or.inl ⟨p, hp, pyStrip_idem p⟩)
          · exact Or.inr (Or.inr ⟨s, p, hp, rfl⟩)
          · exact Or.inl (le_trans (pyStrip_length_le cur) hlen)
      · dsimp only
        split
        · refine Or.inr ⟨Or.inr (Or.inl ⟨_, para, hpara, rfl⟩), ?_⟩
          refine pyStrip_ne_nil_of_mem (c := '.') ?_ (by decide)
          refine List.mem_append.mpr (Or.inl (List.mem_append.mpr
            (Or.inr ?_)))
          decide
        · exact goodCur_of_seg hpara h0
    · rw [if_neg hclose]
      rcases hcur with rfl | ⟨hshape, hne⟩
      · rw [if_pos rfl]
        exact ⟨hchunks, goodCur_of_seg hpara h0⟩
      · have hcne : cur ≠ [] := by
          intro h
          rw [h] at hne
          exact hne rfl
        rw [if_neg hcne]
        refine ⟨hchunks, Or.inr ⟨Or.inr (Or.inr ?_), ?_⟩⟩
        · have hsum : cur.length + (pyStrip para).length ≤ maxLength := by
            by_contra hgt
            exact hclose ⟨by omega, hcne⟩
          rw [List.append_assoc, List.length_append, List.length_append]
          have : (str "\n\n").length = 2 := by decide
          omega
        · rcases exists_not_space_of_pyStrip_ne_nil
            (s := pyStrip para) (by rwa [pyStrip_idem]) with ⟨ch, hch, hw⟩
          exact pyStrip_ne_nil_of_mem
            (List.mem_append.mpr (Or.inr hch)) hw

/-- The whole accumulation loop preserves the invariants. -/
theorem chunkFold_inv (segs : List Str) (maxLength : ℕ) :
    ∀ (ps : List Str) (chunks : List Str) (cur : Str),
    (∀ p ∈ ps, p ∈ segs) →
    (∀ c ∈ chunks, GoodChunk segs maxLength c) →
    GoodCur segs maxLength cur →
    (∀ c ∈ (ps.foldl (chunkStep maxLength) (chunks, cur)).1,
      GoodChunk segs maxLength c) ∧
    GoodCur segs maxLength
      (ps.foldl (chunkStep maxLength) (chunks, cur)).2 := by
  intro ps
  induction ps with
  | nil =>
    intro chunks cur _ hchunks hcur
    exact ⟨hchunks, hcur⟩
  | cons p ps ih =>
    intro chunks cur hps hchunks hcur
    rw [List.foldl_cons]
    have hstep := chunkStep_inv segs maxLength chunks cur p
      (hps p (by simp)) hchunks hcur
    have := ih (chunkStep maxLength (chunks, cur) p).1
      (chunkStep maxLength (chunks, cur) p).2
      (fun q hq => hps q (by simp [hq])) hstep.1 hstep.2
    simpa using this

/-- The helper loop does nothing on segments that strip to empty. -/
theorem chunkFold_skip (maxLength : ℕ) :
    ∀ (ps : List Str) (st : List Str × Str),
    (∀ p ∈ ps, pyStrip p = []) →
    ps.foldl (chunkStep maxLength) st = st := by
  intro ps
  induction ps with
  | nil => intro st _; rfl
  | cons p ps ih =>
    intro st hall
    rw [List.foldl_cons]
    have hstep : chunkStep maxLength st p = st := by
      unfold chunkStep
      rw [if_pos (hall p (by simp))]
    rw [hstep]
    exact ih st (fun q hq => hall q (by simp [hq]))

/-- Counterexample to C4 as stated: with `max_length = 8` the input
`"aaaa\n\nbbbb\n\nc"` yields the chunk `"aaaa\n\nbbbb"` of length 10,
although every stripped segment has length at most 8 — the `'\n\n'`
joiner is not counted by the length check.  With `max_length = 10`,
`"aaaa.bbbb\n\ncccccccc\n\nd"` yields the overlap-seeded chunk
`"bbbb. cccccccc"` of length 14, again with every segment within the
limit.  So a chunk can exceed `max_length` without any single segment
exceeding it. -/
theorem c4_chunk_length_counterexample :
    chunkText (str "aaaa\n\nbbbb\n\nc") (str "f") 8 =
      [str "aaaa\n\nbbbb", str "c"] ∧
    (str "aaaa\n\nbbbb").length = 10 ∧
    (∀ p ∈ splitSegments (str "aaaa\n\nbbbb\n\nc"),
      (pyStrip p).length ≤ 8) ∧
    chunkText (str "aaaa.bbbb\n\ncccccccc\n\nd") (str "f") 10 =
      [str "aaaa.bbbb", str "bbbb. cccccccc", str "cccccccc. d"] ∧
    (str "bbbb. cccccccc").length = 14 ∧
    (∀ p ∈ splitSegments (str "aaaa.bbbb\n\ncccccccc\n\nd"),
      (pyStrip p).length ≤ 10) := by decide

/-- **C4**, amended: every chunk returned by `chunk_text` has length at
most `max_length + 2` (the two-character `'\n\n'` joiner escapes the
length check), or is a single stripped segment kept intact (the case the
claim allowed), or is an overlap-seeded chunk — the stripped form of
`s ++ ". " ++ segment` for some segment, closed before any further
join — or is the original text returned by the empty-input fallback. -/
theorem c4_chunk_length_amended (text filename : Str) (maxLength : ℕ)
    (c : Str) (hc : c ∈ chunkText text filename maxLength) :
    c.length ≤ maxLength + 2 ∨
    (∃ p ∈ splitSegments text, c = pyStrip p) ∨
    (∃ s p, p ∈ splitSegments text ∧
      c = pyStrip (s ++ str ". " ++ pyStrip p)) ∨
    c = text := by
  unfold chunkText at hc
  have hinv := chunkFold_inv (splitSegments text) maxLength
    (splitSegments text) [] [] (fun p hp => hp) (by simp) (Or.inl rfl)
  dsimp only at hc
  split at hc
  · rename_i hP
    split at hc
    · rcases List.mem_append.mp hc with hc | hc
      · rcases (hinv.1 c hc).1 with h | h | h
        · exact Or.inl h
        · exact Or.inr (Or.inl h)
        · exact Or.inr (Or.inr (Or.inl h))
      · rw [List.mem_singleton.mp hc]
        rcases hinv.2 with hnil | ⟨hshape, -⟩
        · rw [hnil] at hP
          exact absurd rfl hP
        · rcases hshape with ⟨p, hp, hval⟩ | ⟨s, p, hp, hval⟩ | hlen
          · rw [hval, pyStrip_idem]
            exact Or.inr (Or.inl ⟨p, hp, rfl⟩)
          · rw [hval]
            exact Or.inr (Or.inr (Or.inl ⟨s, p, hp, rfl⟩))
          · exact Or.inl (le_trans (pyStrip_length_le _) hlen)
    · rename_i hne
      simp at hne
  · split at hc
    · rcases (hinv.1 c hc).1 with h | h | h
      · exact Or.inl h
      · exact Or.inr (Or.inl h)
      · exact Or.inr (Or.inr (Or.inl h))
    · exact Or.inr (Or.inr (Or.inr (List.mem_singleton.mp hc)))

/-- Witness for the amended C4: the length-10 chunk at `max_length = 8`
satisfies the `max_length + 2` bound. -/
theorem c4_chunk_length_amended_witness :
    (str "aaaa\n\nbbbb").length ≤ 8 + 2 ∨
    (∃ p ∈ splitSegments (str "aaaa\n\nbbbb\n\nc"),
      str "aaaa\n\nbbbb" = pyStrip p) ∨
    (∃ s p, p ∈ splitSegments (str "aaaa\n\nbbbb\n\nc") ∧
      str "aaaa\n\nbbbb" = pyStrip (s ++ str ". " ++ pyStrip p)) ∨
    str "aaaa\n\nbbbb" = str "aaaa\n\nbbbb\n\nc" :=
  c4_chunk_length_amended (str "aaaa\n\nbbbb\n\nc") (str "f") 8
    (str "aaaa\n\nbbbb") (by decide)

/-- Counterexample to C5 as stated: on whitespace-only input the
fallback returns the original text as the single chunk, and that chunk
*is* empty after trimming — the two halves of the claim contradict each
other on this input. -/
theorem c5_chunk_nonempty_counterexample :
    chunkText (str " ") (str "f") 1000 = [str " "] ∧
    pyStrip (str " ") = [] := by decide

/-- **C5**, amended: when the input contains any non-whitespace
character, every chunk returned by `chunk_text` is non-empty after
trimming; fully empty input (empty or whitespace-only) returns the
original text as a single chunk — which, being whitespace, trims to
empty. -/
theorem c5_chunk_nonempty_amended (text filename : Str) (maxLength : ℕ) :
    (pyStrip text ≠ [] →
      ∀ c ∈ chunkText text filename maxLength, pyStrip c ≠ []) ∧
    (pyStrip text = [] → chunkText text filename maxLength = [text]) := by
  constructor
  · intro htext c hc
    unfold chunkText at hc
    have hinv := chunkFold_inv (splitSegments text) maxLength
      (splitSegments text) [] [] (fun p hp => hp) (by simp) (Or.inl rfl)
    dsimp only at hc
    split at hc
    · rename_i hP
      split at hc
      · rcases List.mem_append.mp hc with hc | hc
        · exact (hinv.1 c hc).2
        · rw [List.mem_singleton.mp hc, pyStrip_idem]
          exact hP
      · rename_i hne
        simp at hne
    · split at hc
      · exact (hinv.1 c hc).2
      · rw [List.mem_singleton.mp hc]
        exact htext
  · intro htext
    unfold chunkText
    have hall : ∀ p ∈ splitSegments text, pyStrip p = [] := by
      intro p hp
      rw [pyStrip_eq_nil_iff]
      intro ch hch
      exact pyStrip_eq_nil_iff.mp htext ch (splitSegments_chars hp hch)
    dsimp only
    rw [chunkFold_skip maxLength (splitSegments text) ([], []) hall]
    simp [show pyStrip ([] : Str) = [] from rfl]

/-- Witness for the amended C5: both conjuncts at concrete inputs. -/
theorem c5_chunk_nonempty_amended_witness :
    pyStrip (str "a") ≠ [] ∧
    chunkText (str " ") (str "f") 7 = [str " "] :=
  ⟨(c5_chunk_nonempty_amended (str "a") (str "f") 7).1 (by decide)
      (str "a") (by decide),
    (c5_chunk_nonempty_amended (str " ") (str "f") 7).2 (by decide)⟩
